import Mathlib

/-!
Shallow embedding of `horus_udp_to_basestation.py` (Horus UDP → SBS BaseStation
bridge) and proofs about its identifier cache (`find_icao`), its per-sonde
climb-rate smoothing (`Sonde.calculate_ascent_rate`) and the per-message
bridge path (`handle_sonde_message`).

Modelling conventions:
* Python `dict`s (`icaos`, `self._sondes`) preserve insertion order; assigning
  to an existing key keeps its position, assigning a fresh key appends at the
  end, `pop` removes an entry.  They are embedded as association lists
  (`List (String × β)`) with those exact operations.
* Persisted timestamps go through `strftime "%Y/%m/%d %H:%M:%S"` and are read
  back with `strptime`, so the cache sees time at whole-second granularity and
  string comparison of equal-format timestamps agrees with time comparison.
  They are embedded as `Int` seconds; the wall clock handed to
  `handle_sonde_message` is embedded as `ℚ` seconds and floored when stored.
* `sorted(icaos.items(), key=timestamp)[0]` with Python's stable sort returns
  the entry whose timestamp is minimal, the earliest-inserted one on ties;
  `oldest?` computes exactly that entry.
* Exceptions are embedded as `Option`/explicit result constructors: the
  `IndexError` raised by `sorted_icaos[0]` on an empty dict makes `find_icao`
  return `none` (the file is not rewritten, so the caller's state is kept),
  and Python's `ZeroDivisionError` in `calculate_ascent_rate` is the
  `AscentResult.raised` constructor (the window `pop(0)` has already happened
  when the division runs, so the popped window is kept in that case).
* Python floats are embedded as `ℚ`.  At every concrete input used below the
  IEEE-754 double computation agrees with the exact rational one
  (e.g. `int(1000.0 * 3.281) = 3281` and `18.52 / 1.852 = 10.0` in doubles).
  `int()` applied to a float truncates toward zero, embedded as `ratTrunc`.
* The outbound line is a comma join of the fields below; numeric fields are
  kept as values rather than re-implementing Python's shortest-roundtrip
  float printing, which no claim depends on.
-/

namespace Horus

/-- One persisted identifier record: `{"icao": ..., "timestamp": ...}`,
with the timestamp at whole-second granularity. -/
structure IcaoRecord where
  icao : String
  timestamp : Int
  deriving DecidableEq, Repr

/-- The persisted record set `icaos`: a Python dict in insertion order. -/
abbrev Icaos := List (String × IcaoRecord)

/-- Python `d[k]` read access (`k in d` test plus lookup): first—and with
unique keys, only—binding of `k`. -/
def lookupD {β : Type} (l : List (String × β)) (k : String) : Option β :=
  (l.find? (fun p => p.1 == k)).map (·.2)

/-- Python `d[k] = v`: replace the value in place if `k` is bound
(keeping its dict position), otherwise append the new binding at the end. -/
def upsertD {β : Type} : List (String × β) → String → β → List (String × β)
  | [], k, v => [(k, v)]
  | p :: ps, k, v => if p.1 = k then (k, v) :: ps else p :: upsertD ps k v

/-- Python `d.pop(k)`: drop the binding of `k`. -/
def popD {β : Type} : List (String × β) → String → List (String × β)
  | [], _ => []
  | p :: ps, k => if p.1 = k then ps else p :: popD ps k

/-- Minimal stored timestamp of the record set, `none` when empty. -/
def minTs : Icaos → Option Int
  | [] => none
  | p :: ps =>
    match minTs ps with
    | none => some p.2.timestamp
    | some m => some (min p.2.timestamp m)

/-- The entry `sorted(icaos.items(), key=lambda x: strptime(x[1]["timestamp"]))[0]`:
stable sort, hence the earliest-inserted entry among those with the minimal
timestamp. -/
def oldest? (l : Icaos) : Option (String × IcaoRecord) :=
  match minTs l with
  | none => none
  | some m => l.find? (fun p => p.2.timestamp == m)

/-- Python `str(n).zfill(w)`: left-pad with `'0'` up to width `w`. -/
def zfill (w : Nat) (s : String) : String :=
  if w ≤ s.length then s else String.mk (List.replicate (w - s.length) '0') ++ s

/-- Embedding of `HorusUDPToBasestation.find_icao` (lines 116–160).  `fileContent` is the
parse of the persisted file, `none` when `json.loads` raises `ValueError`
(the code then proceeds with `icaos = {}`).  Returns the resolved identifier
and the record set written back to the file; `none` embeds the uncaught
`IndexError` of `sorted_icaos[0]` on an empty dict (only reachable when
`limit = 0`), in which case nothing is written. -/
def find_icao (limit : Nat) (fileContent : Option Icaos) (callsign : String)
    (timestamp : Int) : Option (String × Icaos) :=
  let icaos := fileContent.getD []
  match lookupD icaos callsign with
  | some r => some (r.icao, upsertD icaos callsign ⟨r.icao, timestamp⟩)
  | none =>
    if limit ≤ icaos.length then
      match oldest? icaos with
      | none => none
      | some (key, r) =>
        some (r.icao, upsertD (popD icaos key) callsign ⟨r.icao, timestamp⟩)
    else
      some ("BD" ++ zfill 4 (toString icaos.length),
        upsertD icaos callsign ⟨"BD" ++ zfill 4 (toString icaos.length), timestamp⟩)

/-- One resolution against the persisted file: on an uncaught exception the
file is left as it was. -/
def cacheStep (limit : Nat) (s : Icaos) (call : String × Int) : Icaos :=
  match find_icao limit (some s) call.1 call.2 with
  | none => s
  | some (_, s') => s'

/-- The record set after a sequence of resolutions starting from an empty
persisted record set. -/
def runCache (limit : Nat) (calls : List (String × Int)) : Icaos :=
  calls.foldl (cacheStep limit) []

/-- Python `int()` applied to a float: truncation toward zero. -/
def ratTrunc (q : ℚ) : Int := if 0 ≤ q then ⌊q⌋ else ⌈q⌉

/-- Per-callsign entity state (`Sonde.__init__`, lines 165–171):
`last_message_time` and `last_alt` are written back by the message handler
after each message; the climb-rate window `_ascent_rates` is mutated by
`calculate_ascent_rate`. -/
structure Sonde where
  last_message_time : Option ℚ
  last_alt : Option Int
  ascent_rates : List Int
  deriving DecidableEq, Repr

def Sonde.init : Sonde := ⟨none, none, []⟩

/-- Outcome of `calculate_ascent_rate`: the uncaught `ZeroDivisionError`
(`raised`), or the returned value (`none` on a first observation). -/
inductive AscentResult where
  | raised : AscentResult
  | ok : Option ℚ → AscentResult
  deriving DecidableEq, Repr

/-- The `pop(0)` at the top of `calculate_ascent_rate` (lines 175–176):
drop the oldest sample when the window already holds 6. -/
def popOld (w : List Int) : List Int := if w.length = 6 then w.tail else w

/-- Embedding of `Sonde.calculate_ascent_rate` (lines 173–186).  The `pop(0)` runs before
the division, so when elapsed time is zero the popped window is kept but the
`ZeroDivisionError` aborts before any append; `last_alt` and
`last_message_time` are updated by the caller, never here. -/
def calculate_ascent_rate (s : Sonde) (altitude : Int) (time : ℚ) :
    AscentResult × Sonde :=
  let rates := popOld s.ascent_rates
  match s.last_alt, s.last_message_time with
  | some la, some lt =>
    if time - lt = 0 then (.raised, { s with ascent_rates := rates })
    else
      let rates' := rates ++ [ratTrunc (((altitude - la : Int) : ℚ) / ((time - lt) / 60))]
      (.ok (some ((rates'.sum : ℚ) / (rates'.length : ℚ))),
        { s with ascent_rates := rates' })
  | _, _ => (.ok none, { s with ascent_rates := rates })

/-- One observation of a callsign as driven by `handle_sonde_message`
(lines 100–107): compute the climb rate, then store the current altitude and
time — unless the computation raised, in which case the two assignments on
lines 106–107 are never reached. -/
def sondeStep (s : Sonde) (altitude : Int) (time : ℚ) : AscentResult × Sonde :=
  match calculate_ascent_rate s altitude time with
  | (.raised, s') => (.raised, s')
  | (.ok r, s') =>
    (.ok r, { s' with last_alt := some altitude, last_message_time := some time })

/-- State of one sonde after a sequence of (altitude, time) observations. -/
def runSonde (s : Sonde) : List (Int × ℚ) → Sonde
  | [] => s
  | (a, t) :: rest => runSonde (sondeStep s a t).2 rest

/-- The climb-rate sample an observation appends (empty on the first
observation of a callsign and when the elapsed time is zero). -/
def newSamples (s : Sonde) (a : Int) (t : ℚ) : List Int :=
  match s.last_alt, s.last_message_time with
  | some la, some lt =>
    if t - lt = 0 then [] else [ratTrunc (((a - la : Int) : ℚ) / ((t - lt) / 60))]
  | _, _ => []

/-- All climb-rate samples appended along a run of observations. -/
def sondeSamples (s : Sonde) : List (Int × ℚ) → List Int
  | [] => []
  | (a, t) :: rest => newSamples s a t ++ sondeSamples (sondeStep s a t).2 rest

/-- Whether a run of observations never hits the `ZeroDivisionError`. -/
def noRaise (s : Sonde) : List (Int × ℚ) → Bool
  | [] => true
  | (a, t) :: rest =>
    match sondeStep s a t with
    | (.raised, _) => false
    | (.ok _, s') => noRaise s' rest

/-- Last `n` elements of a list. -/
def takeLast {α : Type} (n : Nat) (l : List α) : List α := l.drop (l.length - n)

/-! ### The bridge (`handle_sonde_message`) -/

/-- A decoded `PAYLOAD_SUMMARY` telemetry record (the fields the handler
reads): latitude/longitude in degrees, altitude in meters, speed in km/h,
heading in degrees. -/
structure Packet where
  callsign : String
  latitude : ℚ
  longitude : ℚ
  altitude : ℚ
  speed : ℚ
  heading : ℚ
  deriving DecidableEq, Repr

/-- One outbound BaseStation line
`MSG,3,,,<icao>,,<date>,<time>,<date>,<time>,<callsign>,<alt_ft>,<speed_kn>,<heading>,<lat>,<lon>,<climb>,,,,,`
with its numeric fields kept as values (`vert_speed = none` is the empty
climb field) and both date/time pairs carrying the processing timestamp. -/
structure Basestation where
  icao : String
  msgTime : ℚ
  callsign : String
  altitude : Int
  speed : ℚ
  heading : ℚ
  latitude : ℚ
  longitude : ℚ
  vert_speed : Option ℚ
  deriving DecidableEq, Repr

/-- Bridge state: the `self._sondes` dict and the persisted identifier file
(`none` when its content is unparseable). -/
structure BridgeState where
  sondes : List (String × Sonde)
  icaoFile : Option Icaos
  deriving DecidableEq, Repr

/-- Embedding of `HorusUDPToBasestation.handle_sonde_message` (lines 80–114): resolve the
identifier, convert altitude m→ft (`int(x * 3.281)`) and speed km/h→knots
(`/ 1.852`), create the sonde entry if missing, compute the smoothed climb
rate, store last altitude/time, and emit one BaseStation line.  A `none`
message embeds an uncaught exception (caught by the listener around the
callback): either `find_icao`'s `IndexError` — nothing is written — or the
`ZeroDivisionError` — the identifier file is already rewritten and the
window already popped, but lines 106–107 never run and nothing is sent. -/
def handle_sonde_message (limit : Nat) (st : BridgeState) (p : Packet)
    (now : ℚ) : Option Basestation × BridgeState :=
  match find_icao limit st.icaoFile p.callsign ⌊now⌋ with
  | none => (none, st)
  | some (icao, icaos') =>
    let altitude : Int := ratTrunc (p.altitude * (3.281 : ℚ))
    let speed : ℚ := p.speed / (1.852 : ℚ)
    let sonde := (lookupD st.sondes p.callsign).getD Sonde.init
    match calculate_ascent_rate sonde altitude now with
    | (.raised, sonde') =>
      (none, ⟨upsertD st.sondes p.callsign sonde', some icaos'⟩)
    | (.ok vert, sonde') =>
      (some ⟨icao, now, p.callsign, altitude, speed, p.heading, p.latitude,
          p.longitude, vert⟩,
        ⟨upsertD st.sondes p.callsign
          { sonde' with last_alt := some altitude, last_message_time := some now },
          some icaos'⟩)

/-- The telemetry record of the end-to-end example: `SONDE1` at 10°N 20°E,
1000 m, 18.52 km/h, heading 90. -/
def telemetryC6 : Packet := ⟨"SONDE1", 10, 20, 1000, 18.52, 90⟩

example : find_icao 2 (some []) "A" 0 = some ("BD0000", [("A", ⟨"BD0000", 0⟩)]) := by
  decide

example : runCache 2 [("A", 0), ("B", 1)] =
    [("A", ⟨"BD0000", 0⟩), ("B", ⟨"BD0001", 1⟩)] := by decide

example : find_icao 2 (some [("A", ⟨"BD0000", 0⟩), ("B", ⟨"BD0001", 1⟩)]) "C" 2 =
    some ("BD0000", [("B", ⟨"BD0001", 1⟩), ("C", ⟨"BD0000", 2⟩)]) := by decide

example : find_icao 0 (some []) "A" 0 = none := by decide

/-! ### Association-list lemmas -/

theorem lookupD_eq_none_iff {β : Type} {l : List (String × β)} {k : String} :
    lookupD l k = none ↔ ∀ p ∈ l, p.1 ≠ k := by
  simp [lookupD, List.find?_eq_none]

theorem upsertD_of_not_mem {β : Type} {l : List (String × β)} {k : String} (v : β)
    (h : ∀ p ∈ l, p.1 ≠ k) : upsertD l k v = l ++ [(k, v)] := by
  induction l with
  | nil => rfl
  | cons p ps ih =>
    simp only [upsertD, if_neg (h p (List.mem_cons_self p ps)), List.cons_append,
      List.cons.injEq, true_and]
    exact ih fun q hq => h q (List.mem_cons_of_mem p hq)

theorem upsertD_keys_of_mem {β : Type} {l : List (String × β)} {k : String} (v : β)
    (h : k ∈ l.map Prod.fst) : (upsertD l k v).map Prod.fst = l.map Prod.fst := by
  induction l with
  | nil => simp at h
  | cons p ps ih =>
    by_cases hpk : p.1 = k
    · simp [upsertD, hpk]
    · have : k ∈ ps.map Prod.fst := by
        rcases List.mem_map.mp h with ⟨q, hq, hq1⟩
        rcases List.mem_cons.mp hq with rfl | hq'
        · exact absurd hq1 hpk
        · exact List.mem_map.mpr ⟨q, hq', hq1⟩
      simp [upsertD, hpk, ih this]

theorem upsertD_length_of_mem {β : Type} {l : List (String × β)} {k : String} (v : β)
    (h : k ∈ l.map Prod.fst) : (upsertD l k v).length = l.length := by
  have := congrArg List.length (upsertD_keys_of_mem v h)
  simpa using this

theorem popD_sublist {β : Type} (l : List (String × β)) (k : String) :
    List.Sublist (popD l k) l := by
  induction l with
  | nil => exact List.Sublist.refl []
  | cons p ps ih =>
    by_cases hpk : p.1 = k
    · simp only [popD, if_pos hpk]
      exact List.sublist_cons_self p ps
    · simp only [popD, if_neg hpk]
      exact List.Sublist.cons₂ p ih

theorem popD_length_of_mem {β : Type} {l : List (String × β)} {k : String}
    (h : k ∈ l.map Prod.fst) : (popD l k).length + 1 = l.length := by
  induction l with
  | nil => simp at h
  | cons p ps ih =>
    by_cases hpk : p.1 = k
    · simp [popD, hpk]
    · have : k ∈ ps.map Prod.fst := by
        rcases List.mem_map.mp h with ⟨q, hq, hq1⟩
        rcases List.mem_cons.mp hq with rfl | hq'
        · exact absurd hq1 hpk
        · exact List.mem_map.mpr ⟨q, hq', hq1⟩
      simp only [popD, if_neg hpk, List.length_cons, ih this]

theorem not_mem_keys_popD {β : Type} {l : List (String × β)} {k : String}
    (hnd : (l.map Prod.fst).Nodup) : k ∉ (popD l k).map Prod.fst := by
  induction l with
  | nil => simp [popD]
  | cons p ps ih =>
    rw [List.map_cons] at hnd
    rcases List.nodup_cons.mp hnd with ⟨hp, hps⟩
    by_cases hpk : p.1 = k
    · simp only [popD, if_pos hpk]
      exact hpk ▸ hp
    · simp only [popD, if_neg hpk, List.map_cons, List.mem_cons]
      rintro (rfl | hmem)
      · exact hpk rfl
      · exact ih hps hmem

theorem mem_popD_of_mem {β : Type} {l : List (String × β)} {k : String}
    {p : String × β} (hp : p ∈ l) (hne : p.1 ≠ k) : p ∈ popD l k := by
  induction l with
  | nil => simp at hp
  | cons q qs ih =>
    by_cases hqk : q.1 = k
    · simp only [popD, if_pos hqk]
      rcases List.mem_cons.mp hp with rfl | h
      · exact absurd hqk hne
      · exact h
    · simp only [popD, if_neg hqk, List.mem_cons]
      rcases List.mem_cons.mp hp with rfl | h
      · exact Or.inl rfl
      · exact Or.inr (ih h)

/-! ### Lemmas about the eviction choice -/

theorem minTs_isSome {l : Icaos} (h : l ≠ []) : ∃ m, minTs l = some m := by
  cases l with
  | nil => exact absurd rfl h
  | cons p ps =>
    cases hm : minTs ps with
    | none => exact ⟨p.2.timestamp, by simp [minTs, hm]⟩
    | some m => exact ⟨min p.2.timestamp m, by simp [minTs, hm]⟩

theorem minTs_eq_none {l : Icaos} (h : minTs l = none) : l = [] := by
  cases l with
  | nil => rfl
  | cons p ps =>
    exfalso
    cases hq : minTs ps with
    | none => simp [minTs, hq] at h
    | some m => simp [minTs, hq] at h

theorem minTs_le {l : Icaos} {m : Int} (h : minTs l = some m) :
    ∀ p ∈ l, m ≤ p.2.timestamp := by
  induction l generalizing m with
  | nil => simp [minTs] at h
  | cons q qs ih =>
    intro p hp
    cases hq : minTs qs with
    | none =>
      have hqs := minTs_eq_none hq
      subst hqs
      have hm : q.2.timestamp = m := by simpa [minTs] using h
      rcases List.mem_cons.mp hp with rfl | hmem
      · omega
      · simp at hmem
    | some mq =>
      have hm : min q.2.timestamp mq = m := by simpa [minTs, hq] using h
      rcases List.mem_cons.mp hp with hpq | hmem
      · rw [hpq]
        have := min_le_left q.2.timestamp mq
        omega
      · have h1 := ih hq p hmem
        have := min_le_right q.2.timestamp mq
        omega

theorem minTs_attained {l : Icaos} {m : Int} (h : minTs l = some m) :
    ∃ p ∈ l, p.2.timestamp = m := by
  induction l generalizing m with
  | nil => simp [minTs] at h
  | cons q qs ih =>
    cases hq : minTs qs with
    | none =>
      have hm : q.2.timestamp = m := by simpa [minTs, hq] using h
      exact ⟨q, List.mem_cons_self q qs, hm⟩
    | some mq =>
      have hm : min q.2.timestamp mq = m := by simpa [minTs, hq] using h
      rcases le_total q.2.timestamp mq with hle | hle
      · refine ⟨q, List.mem_cons_self q qs, ?_⟩
        rw [min_eq_left hle] at hm
        exact hm
      · rw [min_eq_right hle] at hm
        rcases ih hq with ⟨p, hp, hpm⟩
        exact ⟨p, List.mem_cons_of_mem q hp, by omega⟩

theorem oldest?_isSome {l : Icaos} (h : l ≠ []) : ∃ p, oldest? l = some p := by
  rcases minTs_isSome h with ⟨m, hm⟩
  rcases minTs_attained hm with ⟨p, hp, hpm⟩
  have : (l.find? (fun p => p.2.timestamp == m)).isSome :=
    List.find?_isSome.mpr ⟨p, hp, by simp [hpm]⟩
  rcases Option.isSome_iff_exists.mp this with ⟨q, hq⟩
  exact ⟨q, by simp [oldest?, hm, hq]⟩

theorem oldest?_mem {l : Icaos} {p : String × IcaoRecord} (h : oldest? l = some p) :
    p ∈ l := by
  unfold oldest? at h
  cases hm : minTs l with
  | none => rw [hm] at h; cases h
  | some m =>
    rw [hm] at h
    exact List.mem_of_find?_eq_some h

theorem oldest?_min {l : Icaos} {p : String × IcaoRecord} (h : oldest? l = some p) :
    ∀ q ∈ l, p.2.timestamp ≤ q.2.timestamp := by
  unfold oldest? at h
  cases hm : minTs l with
  | none => rw [hm] at h; cases h
  | some m =>
    rw [hm] at h
    have := List.find?_some h
    have hpm : p.2.timestamp = m := by simpa using this
    intro q hq
    exact hpm ▸ minTs_le hm q hq

theorem mem_keys_of_lookupD_eq_some {β : Type} {l : List (String × β)} {k : String}
    {v : β} (h : lookupD l k = some v) : k ∈ l.map Prod.fst := by
  unfold lookupD at h
  cases hf : l.find? (fun p => p.1 == k) with
  | none => rw [hf] at h; cases h
  | some q =>
    have hq1 : q.1 = k := by simpa using List.find?_some hf
    have hmem := List.mem_of_find?_eq_some hf
    exact hq1 ▸ List.mem_map.mpr ⟨q, hmem, rfl⟩

/-! ### The cache capacity invariant (C1) -/

theorem find_icao_preserves_inv {limit : Nat} {s s' : Icaos} {c : String} {t : Int}
    {i : String} (hnd : (s.map Prod.fst).Nodup) (hlen : s.length ≤ limit)
    (h : find_icao limit (some s) c t = some (i, s')) :
    ((s'.map Prod.fst).Nodup ∧ s'.length ≤ limit) := by
  unfold find_icao at h
  simp only [Option.getD_some] at h
  cases hl : lookupD s c with
  | some r =>
    rw [hl] at h
    have hmem := mem_keys_of_lookupD_eq_some hl
    have hs' : s' = upsertD s c ⟨r.icao, t⟩ := by
      simpa using congrArg (fun o => (o.map Prod.snd)) h.symm
    subst hs'
    exact ⟨(upsertD_keys_of_mem _ hmem).symm ▸ hnd,
      (upsertD_length_of_mem _ hmem).symm ▸ hlen⟩
  | none =>
    rw [hl] at h
    have hnmem : ∀ p ∈ s, p.1 ≠ c := lookupD_eq_none_iff.mp hl
    by_cases hcap : limit ≤ s.length
    · rw [if_pos hcap] at h
      cases ho : oldest? s with
      | none => rw [ho] at h; cases h
      | some kr =>
        rw [ho] at h
        have hkmem : kr.1 ∈ s.map Prod.fst :=
          List.mem_map.mpr ⟨kr, oldest?_mem ho, rfl⟩
        have hnotpop : ∀ p ∈ popD s kr.1, p.1 ≠ c := fun p hp =>
          hnmem p ((popD_sublist s kr.1).mem hp)
        have hs' : s' = popD s kr.1 ++ [(c, ⟨kr.2.icao, t⟩)] := by
          have := congrArg (fun o => (o.map Prod.snd)) h.symm
          simpa [upsertD_of_not_mem _ hnotpop] using this
        subst hs'
        have hpopnd : ((popD s kr.1).map Prod.fst).Nodup :=
          ((popD_sublist s kr.1).map Prod.fst).nodup hnd
        have hcnot : c ∉ (popD s kr.1).map Prod.fst := by
          intro hc
          rcases List.mem_map.mp hc with ⟨p, hp, hp1⟩
          exact hnotpop p hp hp1
        constructor
        · rw [List.map_append]
          rw [List.nodup_append]
          refine ⟨hpopnd, by simp, ?_⟩
          simpa [List.disjoint_right] using hcnot
        · have hpl := popD_length_of_mem hkmem
          simp only [List.length_append, List.length_singleton]
          omega
    · rw [if_neg hcap] at h
      have hs' : s' = s ++ [(c, ⟨"BD" ++ zfill 4 (toString s.length), t⟩)] := by
        have := congrArg (fun o => (o.map Prod.snd)) h.symm
        simpa [upsertD_of_not_mem _ hnmem] using this
      subst hs'
      have hcnot : c ∉ s.map Prod.fst := by
        intro hc
        rcases List.mem_map.mp hc with ⟨p, hp, hp1⟩
        exact hnmem p hp hp1
      constructor
      · rw [List.map_append, List.nodup_append]
        refine ⟨hnd, by simp, ?_⟩
        simpa [List.disjoint_right] using hcnot
      · simp only [List.length_append, List.length_singleton]
        omega

theorem cacheStep_preserves_inv {limit : Nat} {s : Icaos} (c : String × Int)
    (hnd : (s.map Prod.fst).Nodup) (hlen : s.length ≤ limit) :
    (((cacheStep limit s c).map Prod.fst).Nodup ∧ (cacheStep limit s c).length ≤ limit) := by
  unfold cacheStep
  cases h : find_icao limit (some s) c.1 c.2 with
  | none => exact ⟨hnd, hlen⟩
  | some is' => exact find_icao_preserves_inv hnd hlen (is'.eta ▸ h)

theorem foldl_cacheStep_inv (limit : Nat) (calls : List (String × Int)) :
    ∀ s : Icaos, (s.map Prod.fst).Nodup → s.length ≤ limit →
      (((calls.foldl (cacheStep limit) s).map Prod.fst).Nodup ∧
        (calls.foldl (cacheStep limit) s).length ≤ limit) := by
  induction calls with
  | nil => exact fun s hnd hlen => ⟨hnd, hlen⟩
  | cons c cs ih =>
    intro s hnd hlen
    rcases cacheStep_preserves_inv c hnd hlen with ⟨hnd', hlen'⟩
    exact ih (cacheStep limit s c) hnd' hlen'

/-- C1: starting from an empty persisted record set, after any sequence of
resolutions the identifier cache holds pairwise-distinct callsigns and never
more of them than the configured capacity `ICAO_LIMIT`. -/
theorem icao_cache_never_exceeds_limit (limit : Nat) (calls : List (String × Int)) :
    ((runCache limit calls).map Prod.fst).Nodup ∧
      (runCache limit calls).length ≤ limit :=
  foldl_cacheStep_inv limit calls [] (by simp) (by simp)

/-! ### LRU eviction (C2) -/

theorem popD_append_cons {β : Type} {s₁ : List (String × β)} {k : String} {v : β}
    (s₂ : List (String × β)) (h : ∀ q ∈ s₁, q.1 ≠ k) :
    popD (s₁ ++ (k, v) :: s₂) k = s₁ ++ s₂ := by
  induction s₁ with
  | nil => simp [popD]
  | cons q qs ih =>
    simp only [List.cons_append, popD, if_neg (h q (List.mem_cons_self q qs)),
      List.cons.injEq, true_and]
    exact ih fun p hp => h p (List.mem_cons_of_mem q hp)

/-- C2: when the record count has reached capacity and a callsign with no
record is resolved, exactly the record with the globally oldest `last_used`
timestamp is evicted (ties broken by insertion order: every earlier-inserted
record is strictly newer), all other records survive, and the evicted
callsign ends up with no record, so its next resolution is brand-new. -/
theorem find_icao_evicts_oldest {limit : Nat} {s : Icaos} {c : String} {t : Int}
    (hnd : (s.map Prod.fst).Nodup) (hfull : s.length = limit) (hpos : 0 < limit)
    (hnew : lookupD s c = none) :
    ∃ k r s₁ s₂,
      oldest? s = some (k, r) ∧
      (∀ q ∈ s, r.timestamp ≤ q.2.timestamp) ∧
      s = s₁ ++ (k, r) :: s₂ ∧
      (∀ q ∈ s₁, r.timestamp < q.2.timestamp) ∧
      find_icao limit (some s) c t = some (r.icao, (s₁ ++ s₂) ++ [(c, ⟨r.icao, t⟩)]) ∧
      lookupD ((s₁ ++ s₂) ++ [(c, ⟨r.icao, t⟩)]) k = none := by
  have hne : s ≠ [] := by
    intro hnil
    rw [hnil] at hfull
    simp at hfull
    omega
  rcases oldest?_isSome hne with ⟨kr, ho⟩
  obtain ⟨k, r⟩ := kr
  have hmin := oldest?_min ho
  -- decompose the stable-sort choice: first entry attaining the minimum
  have hdec : ∃ s₁ s₂, s = s₁ ++ (k, r) :: s₂ ∧ ∀ q ∈ s₁, r.timestamp < q.2.timestamp := by
    unfold oldest? at ho
    cases hm : minTs s with
    | none => rw [hm] at ho; cases ho
    | some m =>
      rw [hm] at ho
      rcases List.find?_eq_some.mp ho with ⟨hpr, s₁, s₂, hsplit, hbefore⟩
      have hrm : r.timestamp = m := by simpa using hpr
      refine ⟨s₁, s₂, hsplit, fun q hq => ?_⟩
      have h1 : m ≤ q.2.timestamp := minTs_le hm q (hsplit ▸ List.mem_append_left _ hq)
      have h2 : q.2.timestamp ≠ m := by simpa using hbefore q hq
      omega
  rcases hdec with ⟨s₁, s₂, hsplit, hstrict⟩
  have hk1 : ∀ q ∈ s₁, q.1 ≠ k := by
    intro q hq
    have : (s₁.map Prod.fst ++ k :: s₂.map Prod.fst).Nodup := by
      simpa [hsplit] using hnd
    rcases List.nodup_append.mp this with ⟨-, -, hdisj⟩
    intro hqk
    exact hdisj (List.mem_map.mpr ⟨q, hq, hqk⟩) (List.mem_cons_self _ _)
  have hpop : popD s k = s₁ ++ s₂ := hsplit ▸ popD_append_cons s₂ hk1
  have hkmem : k ∈ s.map Prod.fst := List.mem_map.mpr ⟨(k, r), oldest?_mem ho, rfl⟩
  have hnmem : ∀ p ∈ s, p.1 ≠ c := lookupD_eq_none_iff.mp hnew
  have hck : c ≠ k := by
    intro hck
    rcases List.mem_map.mp hkmem with ⟨p, hp, hp1⟩
    exact hnmem p hp (hp1.trans hck.symm)
  have hnotpop : ∀ p ∈ popD s k, p.1 ≠ c := fun p hp =>
    hnmem p ((popD_sublist s k).mem hp)
  have hcap : limit ≤ s.length := hfull ▸ le_refl limit
  have hicao : find_icao limit (some s) c t =
      some (r.icao, (s₁ ++ s₂) ++ [(c, ⟨r.icao, t⟩)]) := by
    simp only [find_icao, Option.getD_some, hnew, if_pos hcap, ho, hpop]
    rw [upsertD_of_not_mem _ (hpop ▸ hnotpop)]
  refine ⟨k, r, s₁, s₂, ho, hmin, hsplit, hstrict, hicao, ?_⟩
  apply lookupD_eq_none_iff.mpr
  intro p hp
  rcases List.mem_append.mp hp with hp' | hp'
  · exact fun hpk => not_mem_keys_popD hnd (hpop ▸ List.mem_map.mpr ⟨p, hp', hpk⟩)
  · rcases List.mem_singleton.mp hp' with rfl
    exact hck

/-- Concrete instance of C2 with capacity 2: callsign `A` holds the oldest
record, resolving `C` evicts exactly `A`, and `A` is afterwards absent. -/
theorem find_icao_evicts_oldest_witness :
    ∃ k r s₁ s₂,
      oldest? [("A", ⟨"BD0000", 0⟩), ("B", ⟨"BD0001", 1⟩)] = some (k, r) ∧
      (∀ q ∈ [("A", (⟨"BD0000", 0⟩ : IcaoRecord)), ("B", ⟨"BD0001", 1⟩)],
        r.timestamp ≤ q.2.timestamp) ∧
      [("A", (⟨"BD0000", 0⟩ : IcaoRecord)), ("B", ⟨"BD0001", 1⟩)] = s₁ ++ (k, r) :: s₂ ∧
      (∀ q ∈ s₁, r.timestamp < q.2.timestamp) ∧
      find_icao 2 (some [("A", ⟨"BD0000", 0⟩), ("B", ⟨"BD0001", 1⟩)]) "C" 2 =
        some (r.icao, (s₁ ++ s₂) ++ [("C", ⟨r.icao, 2⟩)]) ∧
      lookupD ((s₁ ++ s₂) ++ [("C", ⟨r.icao, 2⟩)]) k = none :=
  find_icao_evicts_oldest (by decide) (by decide) (by decide) (by decide)

/-! ### Repeated resolution (C3) -/

theorem lookupD_upsertD_self {β : Type} (l : List (String × β)) (k : String) (v : β) :
    lookupD (upsertD l k v) k = some v := by
  induction l with
  | nil => simp [lookupD, upsertD]
  | cons p ps ih =>
    by_cases hpk : p.1 = k
    · simp [upsertD, hpk, lookupD]
    · simpa [upsertD, hpk, lookupD] using ih

theorem find_icao_lookup_self {limit : Nat} {fc : Option Icaos} {c : String} {t : Int}
    {i : String} {s' : Icaos} (h : find_icao limit fc c t = some (i, s')) :
    lookupD s' c = some ⟨i, t⟩ := by
  simp only [find_icao] at h
  cases hl : lookupD (fc.getD []) c with
  | some r =>
    rw [hl] at h
    simp only [Option.some.injEq, Prod.mk.injEq] at h
    rcases h with ⟨rfl, rfl⟩
    exact lookupD_upsertD_self ..
  | none =>
    rw [hl] at h
    by_cases hcap : limit ≤ (fc.getD []).length
    · rw [if_pos hcap] at h
      cases ho : oldest? (fc.getD []) with
      | none => rw [ho] at h; cases h
      | some kr =>
        rw [ho, kr.eta.symm] at h
        simp only [Option.some.injEq, Prod.mk.injEq] at h
        rcases h with ⟨rfl, rfl⟩
        exact lookupD_upsertD_self ..
    · rw [if_neg hcap] at h
      simp only [Option.some.injEq, Prod.mk.injEq] at h
      rcases h with ⟨rfl, rfl⟩
      exact lookupD_upsertD_self ..

/-- C3: resolving the same callsign twice in a row (any two timestamps, no
other resolutions in between) yields the same identifier both times, and the
second call stores the second call's time as the record's `last_used`. -/
theorem find_icao_twice {limit : Nat} {fc : Option Icaos} {c : String}
    {t₁ t₂ : Int} {i₁ : String} {s₁ : Icaos}
    (h : find_icao limit fc c t₁ = some (i₁, s₁)) :
    find_icao limit (some s₁) c t₂ = some (i₁, upsertD s₁ c ⟨i₁, t₂⟩) ∧
      lookupD (upsertD s₁ c ⟨i₁, t₂⟩) c = some ⟨i₁, t₂⟩ := by
  have hs := find_icao_lookup_self h
  exact ⟨by simp only [find_icao, Option.getD_some, hs], lookupD_upsertD_self ..⟩

/-- Concrete instance of C3: a fresh resolution of `A` at time 3 followed by a
second resolution at time 7 returns `BD0000` both times and leaves
`last_used = 7`. -/
theorem find_icao_twice_witness :
    find_icao 5 (some [("A", (⟨"BD0000", 3⟩ : IcaoRecord))]) "A" 7 =
        some ("BD0000",
          upsertD [("A", (⟨"BD0000", 3⟩ : IcaoRecord))] "A" ⟨"BD0000", 7⟩) ∧
      lookupD (upsertD [("A", (⟨"BD0000", 3⟩ : IcaoRecord))] "A" ⟨"BD0000", 7⟩) "A" =
        some (⟨"BD0000", 7⟩ : IcaoRecord) :=
  @find_icao_twice 5 (some []) "A" 3 7 "BD0000" [("A", ⟨"BD0000", 3⟩)] (by decide)

/-! ### Storage corruption fallback (C5) -/

/-- C5: when the persisted record set is unparseable (`json.loads` raises
`ValueError`), `find_icao` behaves exactly as on an empty record set, and with
a positive capacity it completes normally, returning an identifier. -/
theorem find_icao_corrupt_file (limit : Nat) (c : String) (t : Int) :
    find_icao limit none c t = find_icao limit (some []) c t ∧
      (0 < limit → ∃ i s', find_icao limit none c t = some (i, s')) := by
  constructor
  · rfl
  · intro hpos
    have h0 : ¬ (limit ≤ ([] : Icaos).length) := by
      simp only [List.length_nil]
      omega
    refine ⟨"BD" ++ zfill 4 (toString (0 : Nat)),
      [(c, ⟨"BD" ++ zfill 4 (toString (0 : Nat)), t⟩)], ?_⟩
    simp only [find_icao, Option.getD_none]
    rw [show lookupD ([] : Icaos) c = none from rfl, if_neg h0]
    rfl

/-- Concrete instance of C5 at capacity 100. -/
theorem find_icao_corrupt_file_witness :
    find_icao 100 none "X" 0 = find_icao 100 (some []) "X" 0 ∧
      ∃ i s', find_icao 100 none "X" 0 = some (i, s') :=
  ⟨(find_icao_corrupt_file 100 "X" 0).1,
    (find_icao_corrupt_file 100 "X" 0).2 (by decide)⟩

/-! ### Identifier assignment (C4) -/

/-- Refutation of C4 as stated: with capacity 2 and records `A` (older) and
`B`, resolving the new callsign `C` reuses the evicted record's identifier
`BD0000` verbatim; the zero-padded count of currently held records is `0001`
after the eviction (and `0002` before it), so the assigned identifier's
numeric suffix is not the current record count. -/
theorem find_icao_count_suffix_counterexample :
    runCache 2 [("A", 0), ("B", 1)] = [("A", ⟨"BD0000", 0⟩), ("B", ⟨"BD0001", 1⟩)] ∧
      find_icao 2 (some [("A", ⟨"BD0000", 0⟩), ("B", ⟨"BD0001", 1⟩)]) "C" 2 =
        some ("BD0000", [("B", ⟨"BD0001", 1⟩), ("C", ⟨"BD0000", 2⟩)]) ∧
      "BD0000" ≠ "BD" ++ zfill 4 (toString 1) ∧
      "BD0000" ≠ "BD" ++ zfill 4 (toString 2) := by
  refine ⟨by decide, by decide, ?_, ?_⟩ <;> decide

/-- C4 amended: a resolution of a callsign with no record assigns
`"BD" ++ zfill 4 count` only while under capacity; once capacity is reached
the new callsign reuses the evicted (oldest) record's identifier verbatim,
whose suffix is whatever count it was assigned under originally, not the
current record count. -/
theorem find_icao_new_identifier {limit : Nat} {l : Icaos} {c : String} {t : Int}
    (hnew : lookupD l c = none) :
    (l.length < limit →
      find_icao limit (some l) c t =
        some ("BD" ++ zfill 4 (toString l.length),
          l ++ [(c, ⟨"BD" ++ zfill 4 (toString l.length), t⟩)])) ∧
    (∀ k r, limit ≤ l.length → oldest? l = some (k, r) →
      find_icao limit (some l) c t =
        some (r.icao, upsertD (popD l k) c ⟨r.icao, t⟩)) := by
  have hnmem : ∀ p ∈ l, p.1 ≠ c := lookupD_eq_none_iff.mp hnew
  constructor
  · intro hlt
    simp only [find_icao, Option.getD_some, hnew, if_neg (not_le.mpr hlt)]
    rw [upsertD_of_not_mem _ hnmem]
  · intro k r hcap ho
    simp only [find_icao, Option.getD_some, hnew, if_pos hcap, ho]

/-- Concrete instances of the amended C4: under capacity the suffix is the
record count; at capacity the evicted record's identifier is reused. -/
theorem find_icao_new_identifier_witness :
    find_icao 2 (some [("A", ⟨"BD0000", 0⟩)]) "B" 1 =
        some ("BD" ++ zfill 4 (toString 1),
          [("A", ⟨"BD0000", 0⟩)] ++ [("B", ⟨"BD" ++ zfill 4 (toString 1), 1⟩)]) ∧
      find_icao 1 (some [("A", ⟨"BD0000", 0⟩)]) "B" 1 =
        some ("BD0000", upsertD (popD [("A", ⟨"BD0000", 0⟩)] "A") "B" ⟨"BD0000", 1⟩) :=
  ⟨(find_icao_new_identifier (by decide)).1 (by decide),
    (find_icao_new_identifier (by decide)).2 "A" ⟨"BD0000", 0⟩ (by decide) (by decide)⟩

/-! ### Climb-rate window lemmas (C8) -/

theorem popOld_length_le {w : List Int} (h : w.length ≤ 6) :
    (popOld w).length ≤ 6 := by
  unfold popOld
  split
  · simp only [List.length_tail]
    omega
  · exact h

theorem popOld_length_add_one_le {w : List Int} (h : w.length ≤ 6) :
    (popOld w).length + 1 ≤ 6 := by
  unfold popOld
  split
  · rename_i h6
    simp only [List.length_tail]
    omega
  · rename_i h6
    omega

theorem sondeStep_window (s : Sonde) (a : Int) (t : ℚ) :
    (sondeStep s a t).2.ascent_rates = (calculate_ascent_rate s a t).2.ascent_rates := by
  unfold sondeStep
  cases h : calculate_ascent_rate s a t with
  | mk res s' => cases res <;> simp

theorem calculate_window_le {s : Sonde} {a : Int} {t : ℚ}
    (h : s.ascent_rates.length ≤ 6) :
    (calculate_ascent_rate s a t).2.ascent_rates.length ≤ 6 := by
  obtain ⟨lmt, la, w⟩ := s
  cases la with
  | none => cases lmt <;> simpa [calculate_ascent_rate] using popOld_length_le h
  | some la =>
    cases lmt with
    | none => simpa [calculate_ascent_rate] using popOld_length_le h
    | some lt =>
      by_cases ht : t - lt = 0
      · simpa [calculate_ascent_rate, ht] using popOld_length_le h
      · simpa [calculate_ascent_rate, ht] using popOld_length_add_one_le h

theorem runSonde_window_le : ∀ (obs : List (Int × ℚ)) (s : Sonde),
    s.ascent_rates.length ≤ 6 → (runSonde s obs).ascent_rates.length ≤ 6 := by
  intro obs
  induction obs with
  | nil => exact fun s h => h
  | cons o rest ih =>
    intro s h
    obtain ⟨a, t⟩ := o
    simp only [runSonde]
    exact ih _ ((sondeStep_window s a t).symm ▸ calculate_window_le h)

theorem takeLast_of_le {α : Type} {l : List α} {n : Nat} (h : l.length ≤ n) :
    takeLast n l = l := by
  unfold takeLast
  rw [Nat.sub_eq_zero_of_le h, List.drop_zero]

theorem takeLast_cons {α : Type} {l : List α} {n : Nat} (a : α) (h : n ≤ l.length) :
    takeLast n (a :: l) = takeLast n l := by
  unfold takeLast
  simp only [List.length_cons]
  rw [show l.length + 1 - n = (l.length - n) + 1 by omega, List.drop_succ_cons]

theorem takeLast_popOld {w : List Int} (rest : List Int) (hw : w.length ≤ 6)
    (hne : rest ≠ []) :
    takeLast 6 (popOld w ++ rest) = takeLast 6 (w ++ rest) := by
  unfold popOld
  split
  · rename_i h6
    cases w with
    | nil => simp at h6
    | cons x xs =>
      have h5 : xs.length = 5 := by
        simpa using h6
      have hr : 0 < rest.length := List.length_pos.mpr hne
      have hlen : 6 ≤ (xs ++ rest).length := by
        simp only [List.length_append]
        omega
      simp only [List.tail_cons, List.cons_append]
      rw [takeLast_cons x hlen]
  · rfl

theorem runSonde_rates_eq : ∀ (obs : List (Int × ℚ)) (s : Sonde),
    s.ascent_rates.length ≤ 6 →
    ((s.last_alt.isSome ∧ s.last_message_time.isSome) ∨ s.ascent_rates = []) →
    noRaise s obs = true →
    (runSonde s obs).ascent_rates = takeLast 6 (s.ascent_rates ++ sondeSamples s obs) := by
  intro obs
  induction obs with
  | nil =>
    intro s hlen hwf hnr
    simp only [runSonde, sondeSamples, List.append_nil]
    exact (takeLast_of_le hlen).symm
  | cons o rest ih =>
    intro s hlen hwf hnr
    obtain ⟨a, t⟩ := o
    obtain ⟨lmt, la, w⟩ := s
    simp only at hlen
    cases la with
    | some la =>
      cases lmt with
      | some lt =>
        by_cases ht : t - lt = 0
        · exfalso
          simp [noRaise, sondeStep, calculate_ascent_rate, ht] at hnr
        · simp only [noRaise, runSonde, sondeSamples, newSamples, sondeStep,
            calculate_ascent_rate, if_neg ht] at hnr ⊢
          rw [ih _ (by simpa using popOld_length_add_one_le hlen) (Or.inl (by simp))
            (by simpa using hnr)]
          rw [List.append_assoc, takeLast_popOld _ hlen (by simp)]
      | none =>
        have hw : w = [] := by
          rcases hwf with ⟨-, h⟩ | h
          · simp at h
          · simpa using h
        subst hw
        simp only [noRaise, runSonde, sondeSamples, newSamples, sondeStep,
          calculate_ascent_rate, popOld] at hnr ⊢
        rw [ih _ (by simp) (Or.inl (by simp)) (by simpa using hnr)]
        simp
    | none =>
      have hw : w = [] := by
        rcases hwf with ⟨h, -⟩ | h
        · simp at h
        · simpa using h
      subst hw
      cases lmt with
      | some lt =>
        simp only [noRaise, runSonde, sondeSamples, newSamples, sondeStep,
          calculate_ascent_rate, popOld] at hnr ⊢
        rw [ih _ (by simp) (Or.inl (by simp)) (by simpa using hnr)]
        simp
      | none =>
        simp only [noRaise, runSonde, sondeSamples, newSamples, sondeStep,
          calculate_ascent_rate, popOld] at hnr ⊢
        rw [ih _ (by simp) (Or.inl (by simp)) (by simpa using hnr)]
        simp

example : calculate_ascent_rate ⟨some 0, some 0, []⟩ 100 60 =
    (.ok (some 100), ⟨some 0, some 0, [100]⟩) := by
  norm_num [calculate_ascent_rate, popOld, ratTrunc]

example : ratTrunc ((1000 : ℚ) * 3.281) = 3281 := by norm_num [ratTrunc]

example : (18.52 : ℚ) / 1.852 = 10 := by norm_num

example : noRaise Sonde.init [((0:Int), (0:ℚ)), (1, 60), (3, 120)] = true := by
  norm_num [noRaise, sondeStep, calculate_ascent_rate, popOld, ratTrunc, Sonde.init]

example : (runSonde Sonde.init
    [((0:Int), (0:ℚ)), (1, 60), (3, 120), (6, 180), (10, 240), (15, 300), (21, 360), (28, 420)]).ascent_rates
    = [2, 3, 4, 5, 6, 7] := by
  norm_num [runSonde, sondeStep, calculate_ascent_rate, popOld, ratTrunc, Sonde.init]

/-! ### The bridge path (C6, C7) -/

theorem handle_c6_eval (now : ℚ) :
    handle_sonde_message 100 ⟨[], some []⟩ telemetryC6 now =
      (some ⟨"BD0000", now, "SONDE1", 3281, 10, 90, 10, 20, none⟩,
        ⟨[("SONDE1", ⟨some now, some 3281, []⟩)],
          some [("SONDE1", ⟨"BD0000", ⌊now⌋⟩)]⟩) := by
  have hbd : "BD" ++ zfill 4 (toString ([] : Icaos).length) = "BD0000" := by decide
  have hicao : find_icao 100 (some []) "SONDE1" ⌊now⌋ =
      some ("BD0000", [("SONDE1", ⟨"BD0000", ⌊now⌋⟩)]) := by
    have h0 : ¬ ((100 : Nat) ≤ ([] : Icaos).length) := by norm_num
    simp only [find_icao, Option.getD_some]
    rw [show lookupD ([] : Icaos) "SONDE1" = none from rfl, if_neg h0, hbd]
    rfl
  have halt : ratTrunc ((1000 : ℚ) * 3.281) = 3281 := by norm_num [ratTrunc]
  have hspd : (18.52 : ℚ) / 1.852 = 10 := by norm_num
  simp [handle_sonde_message, telemetryC6, hicao, lookupD, calculate_ascent_rate,
    Sonde.init, popOld, upsertD, halt, hspd]

/-- C6: processing the `PAYLOAD_SUMMARY` record for `SONDE1` (latitude 10,
longitude 20, altitude 1000 m, speed 18.52 km/h, heading 90) with no prior
entity state and no prior identifier record produces exactly one output
message, with a fresh identifier (`BD0000`), altitude field 3281, speed
field 10.0 and an empty climb-rate field. -/
theorem bridge_first_message (now : ℚ) :
    ∃ st', handle_sonde_message 100 ⟨[], some []⟩ telemetryC6 now =
      (some ⟨"BD0000", now, "SONDE1", 3281, 10, 90, 10, 20, none⟩, st') :=
  ⟨_, handle_c6_eval now⟩

/-- Refutation of C7 as stated: at `telemetryC6` (1000 m) the emitted
altitude field is 3281, but 1000 × 3.28084 truncated is 3280 — the code
multiplies by 3.281, not 3.28084. -/
theorem altitude_factor_counterexample :
    (handle_sonde_message 100 ⟨[], some []⟩ telemetryC6 0).1.map Basestation.altitude =
        some 3281 ∧
      ratTrunc (telemetryC6.altitude * (3.28084 : ℚ)) = 3280 ∧
      ¬ ((handle_sonde_message 100 ⟨[], some []⟩ telemetryC6 0).1.map Basestation.altitude =
        some (ratTrunc (telemetryC6.altitude * (3.28084 : ℚ)))) := by
  have h2 : ratTrunc (telemetryC6.altitude * (3.28084 : ℚ)) = 3280 := by
    norm_num [telemetryC6, ratTrunc]
  refine ⟨?_, h2, ?_⟩
  · rw [handle_c6_eval 0]
    rfl
  · rw [handle_c6_eval 0, h2]
    simp

/-- C7 amended: for every record the bridge emits, the altitude field is the
record's altitude in meters multiplied by 3.281 (the code's factor, not
3.28084) and truncated toward zero. -/
theorem altitude_conversion {limit : Nat} {st : BridgeState} {p : Packet}
    {now : ℚ} {m : Basestation} {st' : BridgeState}
    (h : handle_sonde_message limit st p now = (some m, st')) :
    m.altitude = ratTrunc (p.altitude * (3.281 : ℚ)) := by
  simp only [handle_sonde_message] at h
  cases hf : find_icao limit st.icaoFile p.callsign ⌊now⌋ with
  | none =>
    rw [hf] at h
    simp at h
  | some is' =>
    obtain ⟨icao, icaos'⟩ := is'
    rw [hf] at h
    cases hc : calculate_ascent_rate ((lookupD st.sondes p.callsign).getD Sonde.init)
        (ratTrunc (p.altitude * (3.281 : ℚ))) now with
    | mk res s2 =>
      rw [hc] at h
      cases res with
      | raised => simp at h
      | ok vert =>
        simp only [Prod.mk.injEq, Option.some.injEq] at h
        rw [← h.1]

/-- Concrete instance of the amended C7 at `telemetryC6`, timestamp 0. -/
theorem altitude_conversion_witness :
    (⟨"BD0000", 0, "SONDE1", 3281, 10, 90, 10, 20, none⟩ : Basestation).altitude =
      ratTrunc (telemetryC6.altitude * (3.281 : ℚ)) :=
  altitude_conversion (handle_c6_eval 0)

/-! ### Climb-rate window: bound, drop-oldest, mean (C8) -/

theorem calculate_after_first_mean (s : Sonde) (a la : Int) (t lt : ℚ)
    (hla : s.last_alt = some la) (hlt : s.last_message_time = some lt)
    (ht : ¬ (t - lt = 0)) :
    (calculate_ascent_rate s a t).1 =
      .ok (some (((calculate_ascent_rate s a t).2.ascent_rates.sum : ℚ) /
        ((calculate_ascent_rate s a t).2.ascent_rates.length : ℚ))) := by
  obtain ⟨lmt, la2, w⟩ := s
  simp only at hla hlt
  subst hla
  subst hlt
  simp [calculate_ascent_rate, if_neg ht]

/-- C8: (i) starting from a fresh entity, the climb-rate window never holds
more than 6 samples; (ii) along any run that never hits the zero-elapsed
exception, the window always equals the most recent 6 of the samples
produced so far (the oldest is dropped on overflow); (iii) every observation
after the first (with nonzero elapsed time) returns the arithmetic mean of
the samples then held in the window. -/
theorem ascent_window_bound_and_mean :
    (∀ obs : List (Int × ℚ), (runSonde Sonde.init obs).ascent_rates.length ≤ 6) ∧
      (∀ obs : List (Int × ℚ), noRaise Sonde.init obs = true →
        (runSonde Sonde.init obs).ascent_rates =
          takeLast 6 (sondeSamples Sonde.init obs)) ∧
      (∀ (s : Sonde) (a la : Int) (t lt : ℚ), s.last_alt = some la →
        s.last_message_time = some lt → ¬ (t - lt = 0) →
        (calculate_ascent_rate s a t).1 =
          .ok (some (((calculate_ascent_rate s a t).2.ascent_rates.sum : ℚ) /
            ((calculate_ascent_rate s a t).2.ascent_rates.length : ℚ)))) := by
  refine ⟨fun obs => runSonde_window_le obs Sonde.init (by simp [Sonde.init]),
    fun obs hnr => ?_, fun s a la t lt hla hlt ht =>
      calculate_after_first_mean s a la t lt hla hlt ht⟩
  have h := runSonde_rates_eq obs Sonde.init (by simp [Sonde.init])
    (Or.inr (by simp [Sonde.init])) hnr
  simpa [Sonde.init] using h

/-- Concrete instance of C8: eight distinct-time observations leave exactly
the most recent 6 samples `[2, 3, 4, 5, 6, 7]` in the window (the first
sample, 1, was dropped), and a second observation one minute after a first
at +100 feet returns the mean of its one-sample window. -/
theorem ascent_window_bound_and_mean_witness :
    noRaise Sonde.init
        [((0:Int), (0:ℚ)), (1, 60), (3, 120), (6, 180), (10, 240), (15, 300),
          (21, 360), (28, 420)] = true ∧
      (runSonde Sonde.init
        [((0:Int), (0:ℚ)), (1, 60), (3, 120), (6, 180), (10, 240), (15, 300),
          (21, 360), (28, 420)]).ascent_rates =
        takeLast 6 (sondeSamples Sonde.init
          [((0:Int), (0:ℚ)), (1, 60), (3, 120), (6, 180), (10, 240), (15, 300),
            (21, 360), (28, 420)]) ∧
      (calculate_ascent_rate ⟨some 0, some 0, []⟩ 100 60).1 =
        .ok (some (((calculate_ascent_rate ⟨some 0, some 0, []⟩ 100 60).2.ascent_rates.sum : ℚ) /
          ((calculate_ascent_rate ⟨some 0, some 0, []⟩ 100 60).2.ascent_rates.length : ℚ))) := by
  have hnr : noRaise Sonde.init
      [((0:Int), (0:ℚ)), (1, 60), (3, 120), (6, 180), (10, 240), (15, 300),
        (21, 360), (28, 420)] = true := by
    norm_num [noRaise, sondeStep, calculate_ascent_rate, popOld, ratTrunc, Sonde.init]
  exact ⟨hnr, ascent_window_bound_and_mean.2.1 _ hnr,
    ascent_window_bound_and_mean.2.2 ⟨some 0, some 0, []⟩ 100 0 60 0 rfl rfl (by norm_num)⟩

/-! ### Zero elapsed time (C9) -/

/-- C9 fails on the code: an observation whose timestamp equals the stored
timestamp reaches the division with elapsed time zero and raises
`ZeroDivisionError` (`raised`), instead of completing; the window keeps its
(here unchanged) popped state and no sample is appended. -/
theorem ascent_rate_zero_elapsed_raises :
    calculate_ascent_rate ⟨some 60, some 100, []⟩ 200 60 =
      (.raised, ⟨some 60, some 100, []⟩) := by
  norm_num [calculate_ascent_rate, popOld]

/-! ### Per-sample truncation (C10) -/

theorem ratTrunc_abs_le (q : ℚ) :
    |(ratTrunc q : ℚ)| ≤ |q| ∧ |q| < |(ratTrunc q : ℚ)| + 1 := by
  unfold ratTrunc
  by_cases h : 0 ≤ q
  · rw [if_pos h]
    have h0 : (0 : ℚ) ≤ (⌊q⌋ : ℚ) := by
      exact_mod_cast Int.floor_nonneg.mpr h
    rw [abs_of_nonneg h, abs_of_nonneg h0]
    exact ⟨Int.floor_le q, Int.lt_floor_add_one q⟩
  · rw [if_neg h]
    push_neg at h
    have h0 : ((⌈q⌉ : ℚ)) ≤ 0 := by
      have hc : ⌈q⌉ ≤ (0 : ℤ) := Int.ceil_le.mpr (by exact_mod_cast h.le)
      exact_mod_cast hc
    rw [abs_of_neg h, abs_of_nonpos h0]
    have h1 := Int.le_ceil q
    have h2 := Int.ceil_lt_add_one q
    constructor
    · linarith
    · linarith

/-- C10: an observation after the first (nonzero elapsed) appends to the
window the exact per-interval rate truncated toward zero to an integer
(`|sample| ≤ |exact| < |sample| + 1` with matching sign via `ratTrunc`), and
the returned smoothed rate is the arithmetic mean of the stored integer
samples, not of the exact rates. -/
theorem ascent_sample_truncated {s : Sonde} {a la : Int} {t lt : ℚ}
    (hla : s.last_alt = some la) (hlt : s.last_message_time = some lt)
    (ht : ¬ (t - lt = 0)) :
    (calculate_ascent_rate s a t).2.ascent_rates =
      popOld s.ascent_rates ++ [ratTrunc (((a - la : Int) : ℚ) / ((t - lt) / 60))] ∧
    (calculate_ascent_rate s a t).1 =
      .ok (some ((((popOld s.ascent_rates ++
          [ratTrunc (((a - la : Int) : ℚ) / ((t - lt) / 60))]).sum : ℚ)) /
        ((popOld s.ascent_rates ++
          [ratTrunc (((a - la : Int) : ℚ) / ((t - lt) / 60))]).length : ℚ))) ∧
    |(ratTrunc (((a - la : Int) : ℚ) / ((t - lt) / 60)) : ℚ)| ≤
      |((a - la : Int) : ℚ) / ((t - lt) / 60)| ∧
    |((a - la : Int) : ℚ) / ((t - lt) / 60)| <
      |(ratTrunc (((a - la : Int) : ℚ) / ((t - lt) / 60)) : ℚ)| + 1 := by
  obtain ⟨lmt, la2, w⟩ := s
  simp only at hla hlt
  subst hla
  subst hlt
  refine ⟨?_, ?_, (ratTrunc_abs_le _).1, (ratTrunc_abs_le _).2⟩
  · simp [calculate_ascent_rate, if_neg ht]
  · simp [calculate_ascent_rate, if_neg ht]

/-- Concrete instance of C10: from 100 ft to 95 ft over 2 minutes, the exact
rate is −2.5 ft/min; the stored sample is the truncation −2 and the returned
rate is the window mean −2. -/
theorem ascent_sample_truncated_witness :
    (calculate_ascent_rate ⟨some 0, some 100, []⟩ 95 120).2.ascent_rates =
        popOld [] ++ [ratTrunc (((95 - 100 : Int) : ℚ) / (((120 : ℚ) - 0) / 60))] ∧
      (calculate_ascent_rate ⟨some 0, some 100, []⟩ 95 120).1 =
        .ok (some ((((popOld [] ++
            [ratTrunc (((95 - 100 : Int) : ℚ) / (((120 : ℚ) - 0) / 60))]).sum : ℚ)) /
          ((popOld [] ++
            [ratTrunc (((95 - 100 : Int) : ℚ) / (((120 : ℚ) - 0) / 60))]).length : ℚ))) ∧
      |(ratTrunc (((95 - 100 : Int) : ℚ) / (((120 : ℚ) - 0) / 60)) : ℚ)| ≤
        |((95 - 100 : Int) : ℚ) / (((120 : ℚ) - 0) / 60)| ∧
      |((95 - 100 : Int) : ℚ) / (((120 : ℚ) - 0) / 60)| <
        |(ratTrunc (((95 - 100 : Int) : ℚ) / (((120 : ℚ) - 0) / 60)) : ℚ)| + 1 :=
  ascent_sample_truncated rfl rfl (by norm_num)

end Horus
